import Mathlib

/-!
Verification of the kinematic-model / kinematic-state core of the
`arm_navigation` repository (planning_models / planning_models2).

The parameter buffer of a `KinematicState` is a flat array of C doubles;
all operations verified here (clamping, comparison, assignment, midpoint,
linear scaling of a random integer) are modelled over `ℚ`, which agrees
with the order-theoretic behaviour of the C++ code.  Loops writing the
buffer in place are modelled as structural recursion over the list of
visited indices, with the buffer threaded through `List.set`.
-/

namespace PM

/-- A joint as laid out by the model: the offset of its parameters in the
global state vector (`state_index`) and how many parameters it uses
(`used_params`).  From `KinematicModel::Joint` (part_000, lines 87-93 of
the old-API header and `joint->state_index` / `joint->used_params` as used
throughout `kinematic_state.cpp`). -/
structure Joint where
  state_index : Nat
  used_params : Nat
deriving Repr, DecidableEq

/-- A link; only its identity matters for the name-lookup claims. -/
structure Link where
  name : String
deriving Repr, DecidableEq

/-- A joint group: its compact dimension and the array mapping group-local
position to global state index (`KinematicModel::JointGroup::stateIndex`,
called `state_index` in `kinematic_state.cpp`). -/
structure JointGroup where
  dimension   : Nat
  state_index : List Nat
deriving Repr, DecidableEq

/-- The part of a `KinematicModel` that `kinematic_state.cpp` reads:
the global dimension, the bounds array (entries `2i`, `2i+1` are the min
and max of component `i`, `KinematicModel::getStateBounds`), and the
name maps for joints, links and groups (`jointMap_`, `linkMap_`,
`groupMap_` / `joint_model_group_map_`).  The name maps of the C++ code
are `std::map`s, so their keys are unique; association lists model them,
with uniqueness (`List.Nodup` of the keys) as an explicit hypothesis where
a claim needs it. -/
structure KinematicModel where
  dimension   : Nat
  stateBounds : List ℚ
  joints      : List (String × Joint)
  links       : List (String × Link)
  groups      : List (String × JointGroup)
deriving Repr, DecidableEq

/-- A `KinematicState`: the parameter buffer `params_`, the parallel
"seen" buffer `updated_`, and the per-instance random seed `randSeed_`
(`kinematic_state.cpp`, constructor at lines 46-53). -/
structure KinematicState where
  params   : List ℚ
  updated  : List Bool
  randSeed : Nat
deriving Repr, DecidableEq

/-- `bounds[2*i]`: lower bound of component `i`. -/
def lowBound (m : KinematicModel) (i : Nat) : ℚ :=
  m.stateBounds.getD (2 * i) 0

/-- `bounds[2*i+1]`: upper bound of component `i`. -/
def highBound (m : KinematicModel) (i : Nat) : ℚ :=
  m.stateBounds.getD (2 * i + 1) 0

/-- Modelled from the spec: the body of `KinematicModel::getGroup` is in
`kinematic_model.cpp`, which is not under `src/`; the spec says lookups
are name-map resolution returning "not found" for absent names. -/
def getGroup (m : KinematicModel) (name : String) : Option JointGroup :=
  (m.groups.find? (fun p => p.1 == name)).map Prod.snd

/-- Modelled from the spec: the body of `KinematicModel::getJoint` is in
`kinematic_model.cpp`, which is not under `src/`; the spec says lookups
are name-map resolution returning "not found" for absent names. -/
def getJoint (m : KinematicModel) (name : String) : Option Joint :=
  (m.joints.find? (fun p => p.1 == name)).map Prod.snd

/-- Modelled from the spec: the body of `KinematicModel::getLink` is in
`kinematic_model.cpp`, which is not under `src/`; the spec says lookups
are name-map resolution returning "not found" for absent names. -/
def getLink (m : KinematicModel) (name : String) : Option Link :=
  (m.links.find? (fun p => p.1 == name)).map Prod.snd

/-- Modelled from the spec: the body of `KinematicModel::hasModelGroup`
is not under `src/`; per the spec it checks whether the group name is
registered. -/
def hasModelGroup (m : KinematicModel) (name : String) : Bool :=
  (m.groups.find? (fun p => p.1 == name)).isSome

/-- `KinematicModel::getModelGroup` (kinematic_model.h, lines 562-566):
`if(!hasModelGroup(name)) return NULL; return map.find(name)->second;`. -/
def getModelGroup (m : KinematicModel) (name : String) : Option JointGroup :=
  if !(hasModelGroup m name) then none
  else (m.groups.find? (fun p => p.1 == name)).map Prod.snd

/-- The list of global indices a group-scoped loop visits:
`group->state_index[i]` for `i < group->dimension`. -/
def groupIdxs (g : JointGroup) : List Nat :=
  (List.range g.dimension).map (fun i => g.state_index.getD i 0)

/-- Generic in-place write loop over a list of global indices: at each
index `j` the parameter becomes `f j` of its current value, and when
`mark` is set the "seen" flag at `j` is raised.  Each concrete operation
below supplies the loop body of the corresponding C++ loop. -/
def updLoop (f : Nat → ℚ → ℚ) (mark : Bool) : List Nat → KinematicState → KinematicState
  | [], s => s
  | j :: rest, s =>
      updLoop f mark rest
        { s with
          params  := s.params.set j (f j (s.params.getD j 0)),
          updated := if mark then s.updated.set j true else s.updated }

/-- The per-component default value (`defaultParams` loop body,
kinematic_state.cpp lines 113-119): 0 when 0 lies within the bounds,
else the bounds midpoint. -/
def defaultValue (m : KinematicModel) (i : Nat) : ℚ :=
  if lowBound m i ≤ 0 ∧ 0 ≤ highBound m i then 0
  else (lowBound m i + highBound m i) / 2

/-- `KinematicState::defaultParams` (lines 108-122): default value at
every component, and every "seen" flag raised. -/
def defaultParams (m : KinematicModel) (s : KinematicState) : KinematicState :=
  updLoop (fun i _ => defaultValue m i) true (List.range m.dimension) s

/-- `KinematicState::defaultParamsGroup` (lines 129-142): default value
at every group index.  Note the source does not touch `updated_` here. -/
def defaultParamsGroup (m : KinematicModel) (g : JointGroup) (s : KinematicState) : KinematicState :=
  updLoop (fun i _ => defaultValue m i) false (groupIdxs g) s

/-- The clamp applied by `enforceBounds*` at component `i`
(lines 228-233): pull the value down to the upper bound or up to the
lower bound when it lies outside. -/
def clampOne (m : KinematicModel) (i : Nat) (p : ℚ) : ℚ :=
  if highBound m i < p then highBound m i
  else if p < lowBound m i then lowBound m i
  else p

/-- `KinematicState::enforceBounds` (lines 222-235). -/
def enforceBounds (m : KinematicModel) (s : KinematicState) : KinematicState :=
  updLoop (clampOne m) false (List.range m.dimension) s

/-- `KinematicState::enforceBoundsGroup` (lines 207-220). -/
def enforceBoundsGroup (m : KinematicModel) (g : JointGroup) (s : KinematicState) : KinematicState :=
  updLoop (clampOne m) false (groupIdxs g) s

/-- The bounds test applied by `checkBounds*` at component `i`
(lines 263-267): false when above the upper or below the lower bound. -/
def boundsCheckAt (m : KinematicModel) (s : KinematicState) (i : Nat) : Bool :=
  !(decide (highBound m i < s.params.getD i 0)) &&
  !(decide (s.params.getD i 0 < lowBound m i))

/-- `KinematicState::checkBounds` (lines 257-270). -/
def checkBounds (m : KinematicModel) (s : KinematicState) : Bool :=
  (List.range m.dimension).all (boundsCheckAt m s)

/-- `KinematicState::checkBoundsGroup` (lines 242-255). -/
def checkBoundsGroup (m : KinematicModel) (g : JointGroup) (s : KinematicState) : Bool :=
  (groupIdxs g).all (boundsCheckAt m s)

/-- `KinematicState::checkBoundsJoint` body once the joint is resolved
(lines 276-285): the test over the joint's contiguous slice. -/
def checkBoundsJointFn (m : KinematicModel) (j : Joint) (s : KinematicState) : Bool :=
  ((List.range j.used_params).map (fun i => j.state_index + i)).all (boundsCheckAt m s)

/-- The conditional-write loop shared by the `setParams*` family
(lines 402-411, 426-432, 457-465): visit `(index, value)` pairs in
order; write and raise the "seen" flag only when the stored value
differs or the component was unseen, recording in the flag whether any
write happened. -/
def setLoop : List (Nat × ℚ) → KinematicState → Bool → KinematicState × Bool
  | [], s, res => (s, res)
  | (j, v) :: rest, s, res =>
      if s.params.getD j 0 ≠ v ∨ s.updated.getD j false = false then
        setLoop rest
          { s with params := s.params.set j v, updated := s.updated.set j true } true
      else
        setLoop rest s res

/-- `KinematicState::setParams` (lines 422-434). -/
def setParams (m : KinematicModel) (s : KinematicState) (vals : List ℚ) : KinematicState × Bool :=
  setLoop ((List.range m.dimension).map (fun i => (i, vals.getD i 0))) s false

/-- `KinematicState::setParamsGroup` (lines 454-468). -/
def setParamsGroup (g : JointGroup) (s : KinematicState) (vals : List ℚ) :
    KinematicState × Bool :=
  setLoop ((List.range g.dimension).map (fun i => (g.state_index.getD i 0, vals.getD i 0))) s false

/-- `KinematicState::setParamsJoint` body once the joint is resolved
(lines 397-414). -/
def setParamsJoint (j : Joint) (s : KinematicState) (vals : List ℚ) :
    KinematicState × Bool :=
  setLoop ((List.range j.used_params).map (fun i => (j.state_index + i, vals.getD i 0))) s false

/-- C `DBL_MIN`, the smallest positive normalised double, `2^-1022`:
the tolerance literal in `KinematicState::operator==` (line 80). -/
def DBL_MIN : ℚ := 1 / 2 ^ 1022

/-- `KinematicState::operator==` (lines 74-83): dimensions must agree and
every componentwise absolute difference must not exceed `DBL_MIN`. -/
def stateEquals (m1 m2 : KinematicModel) (s1 s2 : KinematicState) : Bool :=
  if m1.dimension ≠ m2.dimension then false
  else (List.range m1.dimension).all
    (fun i => !(decide (DBL_MIN < |s1.params.getD i 0 - s2.params.getD i 0|)))

/-- `RAND_MAX` of the platform C library, `2^31 - 1`. -/
def RAND_MAX : Nat := 2147483647

/-- Modelled from the platform C library (glibc `rand_r`, an external
collaborator of `kinematic_state.cpp`): three linear-congruential steps
on a 32-bit seed, combining 11+10+10 result bits.  Returns the drawn
value and the advanced seed. -/
def rand_r (seed : Nat) : Nat × Nat :=
  let n1 := (seed * 1103515245 + 12345) % 2 ^ 32
  let r1 := n1 / 65536 % 2048
  let n2 := (n1 * 1103515245 + 12345) % 2 ^ 32
  let r2 := n2 / 65536 % 1024
  let n3 := (n2 * 1103515245 + 12345) % 2 ^ 32
  let r3 := n3 / 65536 % 1024
  ((r1 * 1024 ^^^ r2) * 1024 ^^^ r3, n3)

/-- The value written at component `j` by the `randomParams*` loops
(lines 156, 168): `(hi - lo) * (r / (RAND_MAX + 1)) + lo`. -/
def randomVal (m : KinematicModel) (j : Nat) (r : Nat) : ℚ :=
  (highBound m j - lowBound m j) * ((r : ℚ) / ((RAND_MAX : ℚ) + 1)) + lowBound m j

/-- The `randomParams*` loop: at each visited index draw from the
per-instance generator, write the scaled value and raise the "seen"
flag, threading the advanced seed. -/
def randLoop (m : KinematicModel) : List Nat → KinematicState → KinematicState
  | [], s => s
  | j :: rest, s =>
      let d := rand_r s.randSeed
      randLoop m rest
        { params   := s.params.set j (randomVal m j d.1),
          updated  := s.updated.set j true,
          randSeed := d.2 }

/-- `KinematicState::randomParams` (lines 161-171). -/
def randomParams (m : KinematicModel) (s : KinematicState) : KinematicState :=
  randLoop m (List.range m.dimension) s

/-- `KinematicState::randomParamsGroup` (lines 149-159). -/
def randomParamsGroup (m : KinematicModel) (g : JointGroup) (s : KinematicState) : KinematicState :=
  randLoop m (groupIdxs g) s

/-- The additive perturbation loop of `perturbParams*`
(lines 178-188, 190-200): add `factor * (hi - lo) * (2u - 1)` to each
visited component; the source does not touch `updated_` here. -/
def perturbLoop (m : KinematicModel) (factor : ℚ) : List Nat → KinematicState → KinematicState
  | [], s => s
  | j :: rest, s =>
      let d := rand_r s.randSeed
      perturbLoop m factor rest
        { params   := s.params.set j
            (s.params.getD j 0 +
              factor * (highBound m j - lowBound m j) *
                (2 * ((d.1 : ℚ) / ((RAND_MAX : ℚ) + 1)) - 1)),
          updated  := s.updated,
          randSeed := d.2 }

/-- `KinematicState::perturbParams` (lines 190-200): perturb every
component, then `enforceBounds()`. -/
def perturbParams (m : KinematicModel) (factor : ℚ) (s : KinematicState) : KinematicState :=
  enforceBounds m (perturbLoop m factor (List.range m.dimension) s)

/-- `KinematicState::perturbParamsGroup` (lines 178-188): perturb the
group's components, then `enforceBoundsGroup(group)`. -/
def perturbParamsGroup (m : KinematicModel) (factor : ℚ) (g : JointGroup)
    (s : KinematicState) : KinematicState :=
  enforceBoundsGroup m g (perturbLoop m factor (groupIdxs g) s)

/-- One call of the randomized family, for stating reproducibility over
call sequences. -/
inductive StateCall where
  | randomAll : StateCall
  | randomGroup : JointGroup → StateCall
  | perturbAll : ℚ → StateCall
  | perturbGroup : ℚ → JointGroup → StateCall
deriving Repr, DecidableEq

/-- Run a sequence of randomized calls against one state. -/
def runCalls (m : KinematicModel) : List StateCall → KinematicState → KinematicState
  | [], s => s
  | c :: rest, s =>
      runCalls m rest
        (match c with
         | .randomAll => randomParams m s
         | .randomGroup g => randomParamsGroup m g s
         | .perturbAll f => perturbParams m f s
         | .perturbGroup f g => perturbParamsGroup m f g s)

/-- `KinematicState::defaultParamsGroup(const std::string&)`
(lines 124-127): resolves the name and uses the result with no
not-found check; the dereference of a failed lookup is undefined, so the
name-taking operation is modelled as defined exactly when the lookup
succeeds. -/
def defaultParamsGroupByName (m : KinematicModel) (s : KinematicState) (name : String) :
    Option KinematicState :=
  (getGroup m name).map (fun g => defaultParamsGroup m g s)

/-- `KinematicState::enforceBoundsGroup(const std::string&)` (lines 202-205). -/
def enforceBoundsGroupByName (m : KinematicModel) (s : KinematicState) (name : String) :
    Option KinematicState :=
  (getGroup m name).map (fun g => enforceBoundsGroup m g s)

/-- `KinematicState::randomParamsGroup(const std::string&)` (lines 144-147). -/
def randomParamsGroupByName (m : KinematicModel) (s : KinematicState) (name : String) :
    Option KinematicState :=
  (getGroup m name).map (fun g => randomParamsGroup m g s)

/-- `KinematicState::setParamsGroup(const double*, const std::string&)`
(lines 449-452). -/
def setParamsGroupByName (m : KinematicModel) (s : KinematicState) (vals : List ℚ)
    (name : String) : Option (KinematicState × Bool) :=
  (getGroup m name).map (fun g => setParamsGroup g s vals)

/-- `KinematicState::checkBoundsJoint` (lines 272-286): resolves the
joint name and dereferences the result with no not-found check. -/
def checkBoundsJointByName (m : KinematicModel) (s : KinematicState) (name : String) :
    Option Bool :=
  (getJoint m name).map (fun j => checkBoundsJointFn m j s)

/-- `KinematicState::getParamsJoint` (lines 353-357): returns the pointer
`params_ + joint->state_index`, modelled as the suffix of the buffer
starting at the joint's state index. -/
def getParamsJointByName (m : KinematicModel) (s : KinematicState) (name : String) :
    Option (List ℚ) :=
  (getJoint m name).map (fun j => s.params.drop j.state_index)

/-- `KinematicState::setParamsJoint(const double*, const std::string&)`
(lines 397-414): resolves the joint name and dereferences the result with
no not-found check before the write loop. -/
def setParamsJointByName (m : KinematicModel) (s : KinematicState) (vals : List ℚ)
    (name : String) : Option (KinematicState × Bool) :=
  (getJoint m name).map (fun j => setParamsJoint j s vals)

/-- Modelled from the spec: `KinematicModel` construction
(`buildRecursive` / `constructJoint` in `kinematic_model.cpp`) is not
under `src/`.  Per the spec (section 4.1), the depth-first walk assigns
each joint `stateIndex` equal to the running dimension counter and then
advances the counter by that joint's `usedParams`; given the
`usedParams` of the joints in declaration order and the incoming
counter, this produces the joint layout. -/
def buildJoints (c : Nat) : List Nat → List Joint
  | [] => []
  | u :: rest => ⟨c, u⟩ :: buildJoints (c + u) rest

/-- Modelled from the spec: after the construction walk, `dimension` is
the final value of the running counter (spec section 4.1). -/
def finalCounter (c : Nat) : List Nat → Nat
  | [] => c
  | u :: rest => finalCounter (c + u) rest

/-- `KinematicState::seenAllGroup` (lines 328-334): all of the group's
components carry the "seen" flag. -/
def seenAllGroup (g : JointGroup) (s : KinematicState) : Bool :=
  (groupIdxs g).all (fun j => s.updated.getD j false)

/-- Structural well-formedness of a model, as established by
construction: the bounds array has an entry pair per state component and
every pair is ordered. -/
def modelOK (m : KinematicModel) : Prop :=
  m.stateBounds.length = 2 * m.dimension ∧
  ∀ i ∈ List.range m.dimension, lowBound m i ≤ highBound m i

/-- Structural well-formedness of a group of a model, as established by
construction: the sub-index array has one entry per group dimension,
its entries are distinct global indices, and all of them address model
components. -/
def groupOK (m : KinematicModel) (g : JointGroup) : Prop :=
  g.state_index.length = g.dimension ∧ g.state_index.Nodup ∧
  ∀ j ∈ g.state_index, j < m.dimension

theorem stateEq_of_fields {s t : KinematicState} (hp : s.params = t.params)
    (hu : s.updated = t.updated) (hr : s.randSeed = t.randSeed) : s = t := by
  cases s; cases t; simp_all

theorem modelOK_wf {m : KinematicModel} (h : modelOK m) :
    ∀ i, lowBound m i ≤ highBound m i := by
  intro i
  by_cases hi : i < m.dimension
  · exact h.2 i (List.mem_range.mpr hi)
  · have hlen : m.stateBounds.length = 2 * m.dimension := h.1
    unfold lowBound highBound
    rw [List.getD_eq_default _ _ (by omega), List.getD_eq_default _ _ (by omega)]

theorem map_getD_range (l : List Nat) :
    (List.range l.length).map (fun i => l.getD i 0) = l := by
  apply List.ext_getElem?
  intro n
  rw [List.getElem?_map]
  by_cases h : n < l.length
  · rw [List.getElem?_range h, List.getElem?_eq_getElem h, Option.map_some',
      List.getD_eq_getElem _ _ h]
  · rw [List.getElem?_eq_none (by simpa using Nat.le_of_not_lt h),
      List.getElem?_eq_none (Nat.le_of_not_lt h)]
    rfl

theorem groupIdxs_eq {g : JointGroup} (h : g.state_index.length = g.dimension) :
    groupIdxs g = g.state_index := by
  unfold groupIdxs
  rw [← h]
  exact map_getD_range _

theorem updLoop_randSeed (f : Nat → ℚ → ℚ) (mark : Bool) :
    ∀ (idxs : List Nat) (s : KinematicState), (updLoop f mark idxs s).randSeed = s.randSeed
  | [], _ => rfl
  | _ :: rest, s => by
      rw [updLoop, updLoop_randSeed f mark rest]

theorem updLoop_params_length (f : Nat → ℚ → ℚ) (mark : Bool) :
    ∀ (idxs : List Nat) (s : KinematicState),
      (updLoop f mark idxs s).params.length = s.params.length
  | [], _ => rfl
  | _ :: rest, s => by
      rw [updLoop, updLoop_params_length f mark rest]
      simp

theorem updLoop_updated_not_mark (f : Nat → ℚ → ℚ) :
    ∀ (idxs : List Nat) (s : KinematicState), (updLoop f false idxs s).updated = s.updated
  | [], _ => rfl
  | _ :: rest, s => by
      rw [updLoop, updLoop_updated_not_mark f rest]
      simp

theorem updLoop_params_getElem? (f : Nat → ℚ → ℚ) (mark : Bool) :
    ∀ (idxs : List Nat), idxs.Nodup → ∀ (s : KinematicState) (k : Nat),
      (updLoop f mark idxs s).params[k]? =
        if k ∈ idxs then (s.params[k]?).map (f k) else s.params[k]?
  | [], _, s, k => by simp [updLoop]
  | j :: rest, h, s, k => by
      obtain ⟨hj, hrest⟩ := List.nodup_cons.mp h
      rw [updLoop, updLoop_params_getElem? f mark rest hrest]
      dsimp only
      by_cases hk : k = j
      · subst hk
        rw [if_neg hj, if_pos (List.mem_cons_self k rest), List.getElem?_set]
        by_cases hlt : k < s.params.length
        · simp [hlt, List.getElem?_eq_getElem hlt, List.getD_eq_getElem _ _ hlt]
        · simp [hlt, List.getElem?_eq_none (Nat.le_of_not_lt hlt)]
      · rw [List.getElem?_set_ne (fun he => hk he.symm)]
        by_cases hr : k ∈ rest
        · rw [if_pos hr, if_pos (List.mem_cons_of_mem _ hr)]
        · rw [if_neg hr, if_neg (by simp [hk, hr])]

theorem updLoop_updated_getElem? (f : Nat → ℚ → ℚ) :
    ∀ (idxs : List Nat), idxs.Nodup → ∀ (s : KinematicState) (k : Nat),
      (updLoop f true idxs s).updated[k]? =
        if k ∈ idxs then (s.updated[k]?).map (fun _ => true) else s.updated[k]?
  | [], _, s, k => by simp [updLoop]
  | j :: rest, h, s, k => by
      obtain ⟨hj, hrest⟩ := List.nodup_cons.mp h
      rw [updLoop, updLoop_updated_getElem? f rest hrest]
      dsimp only
      have htt : (if true = true then s.updated.set j true else s.updated) =
          s.updated.set j true := if_pos rfl
      rw [htt]
      by_cases hk : k = j
      · subst hk
        rw [if_neg hj, if_pos (List.mem_cons_self k rest), List.getElem?_set]
        by_cases hlt : k < s.updated.length
        · simp [hlt, List.getElem?_eq_getElem hlt]
        · simp [hlt, List.getElem?_eq_none (Nat.le_of_not_lt hlt)]
      · rw [List.getElem?_set_ne (fun he => hk he.symm)]
        by_cases hr : k ∈ rest
        · rw [if_pos hr, if_pos (List.mem_cons_of_mem _ hr)]
        · rw [if_neg hr, if_neg (by simp [hk, hr])]

theorem updLoop_params_getD (f : Nat → ℚ → ℚ) (mark : Bool) {idxs : List Nat}
    (h : idxs.Nodup) {s : KinematicState} {k : Nat} (hk : k ∈ idxs)
    (hlt : k < s.params.length) :
    (updLoop f mark idxs s).params.getD k 0 = f k (s.params.getD k 0) := by
  rw [List.getD_eq_getElem?_getD, updLoop_params_getElem? f mark idxs h s k, if_pos hk,
    List.getElem?_eq_getElem hlt, List.getD_eq_getElem _ _ hlt]
  rfl

theorem clampOne_idem {m : KinematicModel} {i : Nat}
    (h : lowBound m i ≤ highBound m i) (p : ℚ) :
    clampOne m i (clampOne m i p) = clampOne m i p := by
  unfold clampOne
  split_ifs <;> first | rfl | linarith

theorem clampOne_mem {m : KinematicModel} {i : Nat}
    (h : lowBound m i ≤ highBound m i) (p : ℚ) :
    lowBound m i ≤ clampOne m i p ∧ clampOne m i p ≤ highBound m i := by
  unfold clampOne
  split_ifs <;> constructor <;> linarith

theorem clampOne_eq_self_iff {m : KinematicModel} {i : Nat} (p : ℚ) :
    clampOne m i p = p ↔ ¬ highBound m i < p ∧ ¬ p < lowBound m i := by
  unfold clampOne
  split_ifs with h1 h2
  · exact ⟨fun hx => absurd hx (ne_of_lt h1), fun hx => absurd h1 hx.1⟩
  · exact ⟨fun hx => absurd hx.symm (ne_of_lt h2), fun hx => absurd h2 hx.2⟩
  · exact ⟨fun _ => ⟨h1, h2⟩, fun _ => rfl⟩

instance (m : KinematicModel) : Decidable (modelOK m) :=
  inferInstanceAs (Decidable (m.stateBounds.length = 2 * m.dimension ∧
    ∀ i ∈ List.range m.dimension, lowBound m i ≤ highBound m i))

instance (m : KinematicModel) (g : JointGroup) : Decidable (groupOK m g) :=
  inferInstanceAs (Decidable (g.state_index.length = g.dimension ∧ g.state_index.Nodup ∧
    ∀ j ∈ g.state_index, j < m.dimension))

/-- Concrete fixture model: two 1-parameter joints with bounds `[-1,1]`
and `[2,4]`, one group addressing global component 1. -/
def Wm : KinematicModel :=
  { dimension := 2, stateBounds := [-1, 1, 2, 4],
    joints := [("j0", ⟨0, 1⟩), ("j1", ⟨1, 1⟩)],
    links := [("base", ⟨"base"⟩)],
    groups := [("g", ⟨1, [1]⟩)] }

/-- The fixture model's group. -/
def Wg : JointGroup := ⟨1, [1]⟩

/-- Concrete fixture state bound to `Wm`. -/
def Ws : KinematicState := ⟨[0, 3], [false, true], 17⟩

theorem updLoop_clamp_idem (m : KinematicModel) {idxs : List Nat} (h : idxs.Nodup)
    (hwf : ∀ i, lowBound m i ≤ highBound m i) (s : KinematicState) :
    updLoop (clampOne m) false idxs (updLoop (clampOne m) false idxs s) =
      updLoop (clampOne m) false idxs s := by
  apply stateEq_of_fields
  · apply List.ext_getElem?
    intro k
    simp only [updLoop_params_getElem? (clampOne m) false idxs h]
    by_cases hk : k ∈ idxs
    · simp only [if_pos hk, Option.map_map]
      cases s.params[k]? with
      | none => rfl
      | some p => simp [Function.comp, clampOne_idem (hwf k)]
    · simp only [if_neg hk]
  · rw [updLoop_updated_not_mark]
  · rw [updLoop_randSeed]

/-- C3: `enforceBounds` is idempotent — applying it twice gives the same
state as applying it once — and so is `enforceBoundsGroup` for every
(well-formed) group of the model. -/
theorem C3_enforce_bounds_idempotent (m : KinematicModel) (s : KinematicState)
    (hm : modelOK m) :
    enforceBounds m (enforceBounds m s) = enforceBounds m s ∧
    ∀ g : JointGroup, groupOK m g →
      enforceBoundsGroup m g (enforceBoundsGroup m g s) = enforceBoundsGroup m g s := by
  constructor
  · exact updLoop_clamp_idem m (List.nodup_range _) (modelOK_wf hm) s
  · intro g hg
    have hnd : (groupIdxs g).Nodup := by
      rw [groupIdxs_eq hg.1]
      exact hg.2.1
    exact updLoop_clamp_idem m hnd (modelOK_wf hm) s

/-- Witness for C3 at the concrete fixture. -/
theorem C3_witness :
    enforceBounds Wm (enforceBounds Wm Ws) = enforceBounds Wm Ws ∧
    enforceBoundsGroup Wm Wg (enforceBoundsGroup Wm Wg Ws) = enforceBoundsGroup Wm Wg Ws :=
  ⟨(C3_enforce_bounds_idempotent Wm Ws (by decide)).1,
   (C3_enforce_bounds_idempotent Wm Ws (by decide)).2 Wg (by decide)⟩

theorem boundsCheckAt_eq_true {m : KinematicModel} {s : KinematicState} {i : Nat} :
    boundsCheckAt m s i = true ↔
      ¬ highBound m i < s.params.getD i 0 ∧ ¬ s.params.getD i 0 < lowBound m i := by
  simp [boundsCheckAt]

/-- C4: `checkBounds` returns true exactly when `enforceBounds` would
leave the parameter buffer unchanged. -/
theorem C4_checkBounds_iff_enforce_fixes (m : KinematicModel) (s : KinematicState)
    (hlen : s.params.length = m.dimension) :
    checkBounds m s = true ↔ (enforceBounds m s).params = s.params := by
  constructor
  · intro h
    rw [checkBounds, List.all_eq_true] at h
    apply List.ext_getElem?
    intro k
    rw [enforceBounds, updLoop_params_getElem? _ _ _ (List.nodup_range _)]
    by_cases hk : k ∈ List.range m.dimension
    · rw [if_pos hk]
      have hlt : k < s.params.length := by
        have := List.mem_range.mp hk
        omega
      rw [List.getElem?_eq_getElem hlt, Option.map_some']
      have hgd : s.params.getD k 0 = s.params[k] := List.getD_eq_getElem _ _ hlt
      have hself := (clampOne_eq_self_iff (s.params.getD k 0)).mpr
        (boundsCheckAt_eq_true.mp (h k hk))
      rw [hgd] at hself
      rw [hself]
    · rw [if_neg hk]
  · intro h
    rw [checkBounds, List.all_eq_true]
    intro k hk
    have hlt : k < s.params.length := by
      have := List.mem_range.mp hk
      omega
    have hcongr : (enforceBounds m s).params[k]? = s.params[k]? := by rw [h]
    rw [enforceBounds, updLoop_params_getElem? _ _ _ (List.nodup_range _), if_pos hk,
      List.getElem?_eq_getElem hlt, Option.map_some'] at hcongr
    have heq : clampOne m k (s.params[k]) = s.params[k] := Option.some.inj hcongr
    rw [boundsCheckAt_eq_true]
    have hgd : s.params.getD k 0 = s.params[k] := List.getD_eq_getElem _ _ hlt
    rw [hgd]
    exact (clampOne_eq_self_iff _).mp heq

/-- Witness for C4 at the concrete fixture. -/
theorem C4_witness :
    checkBounds Wm Ws = true ↔ (enforceBounds Wm Ws).params = Ws.params :=
  C4_checkBounds_iff_enforce_fixes Wm Ws (by decide)

/-- C2: after `defaultParams`, every component is within its bounds, is 0
whenever 0 lies within the bounds, and is the bounds midpoint otherwise. -/
theorem C2_defaultParams_values (m : KinematicModel) (s : KinematicState)
    (hm : modelOK m) (hlen : s.params.length = m.dimension) :
    ∀ i < m.dimension,
      lowBound m i ≤ (defaultParams m s).params.getD i 0 ∧
      (defaultParams m s).params.getD i 0 ≤ highBound m i ∧
      (lowBound m i ≤ 0 ∧ 0 ≤ highBound m i → (defaultParams m s).params.getD i 0 = 0) ∧
      (¬ (lowBound m i ≤ 0 ∧ 0 ≤ highBound m i) →
        (defaultParams m s).params.getD i 0 = (lowBound m i + highBound m i) / 2) := by
  intro i hi
  have hval : (defaultParams m s).params.getD i 0 = defaultValue m i := by
    rw [defaultParams,
      updLoop_params_getD _ _ (List.nodup_range _) (List.mem_range.mpr hi) (by omega)]
  rw [hval]
  have hwf := modelOK_wf hm i
  unfold defaultValue
  by_cases h0 : lowBound m i ≤ 0 ∧ 0 ≤ highBound m i
  · rw [if_pos h0]
    exact ⟨h0.1, h0.2, fun _ => rfl, fun hc => absurd h0 hc⟩
  · rw [if_neg h0]
    exact ⟨by linarith, by linarith, fun hc => absurd hc h0, fun _ => rfl⟩

/-- Witness for C2 at the concrete fixture, component 1 (bounds `[2,4]`,
which exclude 0). -/
theorem C2_witness :
    lowBound Wm 1 ≤ (defaultParams Wm Ws).params.getD 1 0 ∧
    (defaultParams Wm Ws).params.getD 1 0 ≤ highBound Wm 1 ∧
    (lowBound Wm 1 ≤ 0 ∧ 0 ≤ highBound Wm 1 → (defaultParams Wm Ws).params.getD 1 0 = 0) ∧
    (¬ (lowBound Wm 1 ≤ 0 ∧ 0 ≤ highBound Wm 1) →
      (defaultParams Wm Ws).params.getD 1 0 = (lowBound Wm 1 + highBound Wm 1) / 2) :=
  C2_defaultParams_values Wm Ws (by decide) (by decide) 1 (by decide)

theorem getD_set_true {l : List Bool} {j k : Nat} (h : l.getD k false = true) :
    (l.set j true).getD k false = true := by
  by_cases hjk : j = k
  · subst hjk
    by_cases hlt : j < l.length
    · rw [List.getD_eq_getElem?_getD, List.getElem?_set_self hlt]
      rfl
    · rw [List.set_eq_of_length_le (Nat.le_of_not_lt hlt)]
      exact h
  · rw [List.getD_eq_getElem?_getD, List.getElem?_set_ne hjk, ← List.getD_eq_getElem?_getD]
    exact h

theorem setLoop_res_true : ∀ (pairs : List (Nat × ℚ)) (s : KinematicState),
    (setLoop pairs s true).2 = true
  | [], _ => rfl
  | (_, _) :: rest, s => by
      rw [setLoop]
      split_ifs <;> exact setLoop_res_true rest _

theorem setLoop_res : ∀ (pairs : List (Nat × ℚ)) (s : KinematicState) (res : Bool),
    (setLoop pairs s res).2 =
      (res || pairs.any (fun pr =>
        !(decide (s.params.getD pr.1 0 = pr.2)) || !(s.updated.getD pr.1 false)))
  | [], s, res => by simp [setLoop]
  | (j, v) :: rest, s, res => by
      rw [setLoop]
      by_cases hc : s.params.getD j 0 ≠ v ∨ s.updated.getD j false = false
      · rw [if_pos hc, setLoop_res_true]
        have hhead : (!(decide (s.params.getD j 0 = v)) || !(s.updated.getD j false)) = true := by
          rcases hc with hne | hup
          · rw [decide_eq_false hne]
            rfl
          · rw [hup]
            simp
        rw [List.any_cons]
        dsimp only
        rw [hhead]
        simp
      · rw [if_neg hc]
        push_neg at hc
        rw [setLoop_res rest s res]
        have hhead : (!(decide (s.params.getD j 0 = v)) || !(s.updated.getD j false)) = false := by
          have hu : s.updated.getD j false = true := by
            have hne := hc.2
            cases hb : s.updated.getD j false
            · exact absurd hb hne
            · rfl
          rw [hc.1, hu]
          simp
        rw [List.any_cons]
        dsimp only
        rw [hhead]
        simp

theorem setLoop_eq_of_res_false : ∀ (pairs : List (Nat × ℚ)) (s : KinematicState) (res : Bool),
    (setLoop pairs s res).2 = false → setLoop pairs s res = (s, res)
  | [], _, _ => fun _ => rfl
  | (_, _) :: rest, s, res => by
      rw [setLoop]
      split_ifs with hc
      · intro h
        rw [setLoop_res_true] at h
        exact absurd h (by simp)
      · exact fun h => setLoop_eq_of_res_false rest s res h

theorem setLoop_updated_mono : ∀ (pairs : List (Nat × ℚ)) (s : KinematicState) (res : Bool)
    (k : Nat), s.updated.getD k false = true →
    ((setLoop pairs s res).1).updated.getD k false = true
  | [], _, _, _ => fun h => h
  | (_, _) :: rest, s, res, k => by
      intro h
      rw [setLoop]
      split_ifs with hc
      · exact setLoop_updated_mono rest _ _ k (getD_set_true h)
      · exact setLoop_updated_mono rest s res k h

theorem setLoop_params_length : ∀ (pairs : List (Nat × ℚ)) (s : KinematicState) (res : Bool),
    ((setLoop pairs s res).1).params.length = s.params.length
  | [], _, _ => rfl
  | (_, _) :: rest, s, res => by
      rw [setLoop]
      split_ifs
      · rw [setLoop_params_length rest]
        simp
      · exact setLoop_params_length rest s res

theorem setLoop_updated_length : ∀ (pairs : List (Nat × ℚ)) (s : KinematicState) (res : Bool),
    ((setLoop pairs s res).1).updated.length = s.updated.length
  | [], _, _ => rfl
  | (_, _) :: rest, s, res => by
      rw [setLoop]
      split_ifs
      · rw [setLoop_updated_length rest]
        simp
      · exact setLoop_updated_length rest s res

theorem setLoop_marks : ∀ (pairs : List (Nat × ℚ)) (s : KinematicState) (res : Bool) (k : Nat),
    k < s.updated.length → k ∈ pairs.map Prod.fst →
    ((setLoop pairs s res).1).updated.getD k false = true
  | [], _, _, _ => by
      intro _ hmem
      simp at hmem
  | (j, v) :: rest, s, res, k => by
      intro hk hmem
      rw [List.map_cons] at hmem
      rw [setLoop]
      by_cases hkj : k = j
      · subst hkj
        split_ifs with hc
        · apply setLoop_updated_mono
          dsimp only
          rw [List.getD_eq_getElem?_getD, List.getElem?_set_self hk]
          rfl
        · push_neg at hc
          apply setLoop_updated_mono
          have := hc.2
          simp_all
      · have hmem' : k ∈ rest.map Prod.fst := by
          rcases List.mem_cons.mp hmem with he | hr
          · exact absurd he hkj
          · exact hr
        split_ifs with hc
        · exact setLoop_marks rest _ _ k (by simpa using hk) hmem'
        · exact setLoop_marks rest s res k hk hmem'

theorem setLoop_params_not_mem : ∀ (pairs : List (Nat × ℚ)) (s : KinematicState) (res : Bool)
    (k : Nat), k ∉ pairs.map Prod.fst →
    ((setLoop pairs s res).1).params[k]? = s.params[k]?
  | [], _, _, _ => fun _ => rfl
  | (j, v) :: rest, s, res, k => by
      intro hk
      rw [List.map_cons] at hk
      have hkj : k ≠ j := fun he => hk (he ▸ List.mem_cons_self _ _)
      have hkr : k ∉ rest.map Prod.fst := fun hr => hk (List.mem_cons_of_mem _ hr)
      rw [setLoop]
      split_ifs with hc
      · rw [setLoop_params_not_mem rest _ _ k hkr]
        dsimp only
        exact List.getElem?_set_ne (fun he => hkj he.symm)
      · exact setLoop_params_not_mem rest s res k hkr

theorem setLoop_writes : ∀ (pairs : List (Nat × ℚ)), (pairs.map Prod.fst).Nodup →
    ∀ (s : KinematicState) (res : Bool) (k : Nat) (v : ℚ),
    (k, v) ∈ pairs → k < s.params.length →
    ((setLoop pairs s res).1).params.getD k 0 = v
  | [], _, s, res, k, v => by
      intro hmem _
      simp at hmem
  | (j, w) :: rest, hnd, s, res, k, v => by
      intro hmem hk
      rw [List.map_cons, List.nodup_cons] at hnd
      obtain ⟨hjrest, hndrest⟩ := hnd
      rw [setLoop]
      rcases List.mem_cons.mp hmem with he | hr
      · injection he with h1 h2
        subst h1
        subst h2
        split_ifs with hc
        · rw [List.getD_eq_getElem?_getD, setLoop_params_not_mem rest _ _ k hjrest]
          dsimp only
          rw [List.getElem?_set_self hk]
          rfl
        · push_neg at hc
          rw [List.getD_eq_getElem?_getD, setLoop_params_not_mem rest s res k hjrest,
            ← List.getD_eq_getElem?_getD]
          exact hc.1
      · have hkrest : k ∈ rest.map Prod.fst := List.mem_map.mpr ⟨(k, v), hr, rfl⟩
        have hkj : k ≠ j := fun he2 => hjrest (he2 ▸ hkrest)
        split_ifs with hc
        · exact setLoop_writes rest hndrest _ _ k v hr (by simpa using hk)
        · exact setLoop_writes rest hndrest s res k v hr hk

theorem entry_true_iff {a : Prop} [Decidable a] {b : Bool} :
    ((!(decide a)) || !b) = true ↔ (¬ a ∨ b = false) := by
  cases hb : b <;> by_cases ha : a <;> simp [ha, hb]

theorem range_pairs_fst (n : Nat) (idx : Nat → Nat) (val : Nat → ℚ) :
    ((List.range n).map (fun i => (idx i, val i))).map Prod.fst = (List.range n).map idx := by
  rw [List.map_map]
  rfl

theorem setLoop_spec (n : Nat) (idx : Nat → Nat) (s : KinematicState) (vals : List ℚ)
    (hnd : ((List.range n).map idx).Nodup)
    (hp : ∀ i < n, idx i < s.params.length)
    (hu : ∀ i < n, idx i < s.updated.length) :
    let pairs := (List.range n).map (fun i => (idx i, vals.getD i 0))
    ((setLoop pairs s false).2 = true ↔
      ∃ i < n, s.params.getD (idx i) 0 ≠ vals.getD i 0 ∨
        s.updated.getD (idx i) false = false) ∧
    (∀ i < n, (setLoop pairs s false).1.params.getD (idx i) 0 = vals.getD i 0) ∧
    (∀ i < n, (setLoop pairs s false).1.updated.getD (idx i) false = true) ∧
    ((setLoop pairs s false).2 = false → (setLoop pairs s false).1 = s) := by
  intro pairs
  have hfst : pairs.map Prod.fst = (List.range n).map idx :=
    range_pairs_fst n idx (fun i => vals.getD i 0)
  refine ⟨?_, ?_, ?_, ?_⟩
  · rw [setLoop_res]
    simp only [Bool.false_or]
    constructor
    · intro h
      obtain ⟨pr, hpr, hf⟩ := List.any_eq_true.mp h
      obtain ⟨i, hi, he⟩ := List.mem_map.mp hpr
      subst he
      refine ⟨i, List.mem_range.mp hi, ?_⟩
      exact entry_true_iff.mp hf
    · rintro ⟨i, hi, hcond⟩
      apply List.any_eq_true.mpr
      refine ⟨(idx i, vals.getD i 0), List.mem_map.mpr ⟨i, List.mem_range.mpr hi, rfl⟩, ?_⟩
      exact entry_true_iff.mpr hcond
  · intro i hi
    apply setLoop_writes pairs (hfst ▸ hnd)
    · exact List.mem_map.mpr ⟨i, List.mem_range.mpr hi, rfl⟩
    · exact hp i hi
  · intro i hi
    apply setLoop_marks
    · exact hu i hi
    · rw [hfst]
      exact List.mem_map.mpr ⟨i, List.mem_range.mpr hi, rfl⟩
  · intro h
    have heq := setLoop_eq_of_res_false pairs s false h
    rw [heq]

/-- C5: the `setParams` / `setParamsGroup` / `setParamsJoint` operations
write the supplied values into the addressed components, mark each
addressed component "seen", return true exactly when some addressed
component held a different value or was unseen, and leave the buffer
unchanged when returning false. -/
theorem C5_setParams_family (m : KinematicModel) (s : KinematicState) (vals : List ℚ)
    (hp : s.params.length = m.dimension) (hu : s.updated.length = m.dimension) :
    (((setParams m s vals).2 = true ↔
        ∃ i < m.dimension, s.params.getD i 0 ≠ vals.getD i 0 ∨
          s.updated.getD i false = false) ∧
      (∀ i < m.dimension, (setParams m s vals).1.params.getD i 0 = vals.getD i 0) ∧
      (∀ i < m.dimension, (setParams m s vals).1.updated.getD i false = true) ∧
      ((setParams m s vals).2 = false → (setParams m s vals).1 = s)) ∧
    (∀ g : JointGroup, groupOK m g →
      (((setParamsGroup g s vals).2 = true ↔
          ∃ i < g.dimension, s.params.getD (g.state_index.getD i 0) 0 ≠ vals.getD i 0 ∨
            s.updated.getD (g.state_index.getD i 0) false = false) ∧
        (∀ i < g.dimension,
          (setParamsGroup g s vals).1.params.getD (g.state_index.getD i 0) 0 = vals.getD i 0) ∧
        (∀ i < g.dimension,
          (setParamsGroup g s vals).1.updated.getD (g.state_index.getD i 0) false = true) ∧
        ((setParamsGroup g s vals).2 = false → (setParamsGroup g s vals).1 = s))) ∧
    (∀ j : Joint, j.state_index + j.used_params ≤ m.dimension →
      (((setParamsJoint j s vals).2 = true ↔
          ∃ i < j.used_params, s.params.getD (j.state_index + i) 0 ≠ vals.getD i 0 ∨
            s.updated.getD (j.state_index + i) false = false) ∧
        (∀ i < j.used_params,
          (setParamsJoint j s vals).1.params.getD (j.state_index + i) 0 = vals.getD i 0) ∧
        (∀ i < j.used_params,
          (setParamsJoint j s vals).1.updated.getD (j.state_index + i) false = true) ∧
        ((setParamsJoint j s vals).2 = false → (setParamsJoint j s vals).1 = s))) := by
  refine ⟨?_, ?_, ?_⟩
  · have h := setLoop_spec m.dimension (fun i => i) s vals
      (by simpa using List.nodup_range m.dimension)
      (fun i hi => by dsimp only; omega) (fun i hi => by dsimp only; omega)
    exact h
  · intro g hg
    obtain ⟨hg1, hg2, hg3⟩ := hg
    have hnd : ((List.range g.dimension).map (fun i => g.state_index.getD i 0)).Nodup := by
      have hidx : (List.range g.dimension).map (fun i => g.state_index.getD i 0) =
          g.state_index := groupIdxs_eq hg1
      rw [hidx]
      exact hg2
    have hlt : ∀ i < g.dimension, g.state_index.getD i 0 < m.dimension := by
      intro i hi
      have hilen : i < g.state_index.length := by omega
      have hmem : g.state_index.getD i 0 ∈ g.state_index := by
        rw [List.getD_eq_getElem _ _ hilen]
        exact List.getElem_mem hilen
      exact hg3 _ hmem
    have h := setLoop_spec g.dimension (fun i => g.state_index.getD i 0) s vals hnd
      (fun i hi => by dsimp only; have := hlt i hi; omega)
      (fun i hi => by dsimp only; have := hlt i hi; omega)
    exact h
  · intro j hj
    have hnd : ((List.range j.used_params).map (fun i => j.state_index + i)).Nodup := by
      refine List.Nodup.map ?_ (List.nodup_range _)
      intro a b hab
      dsimp only at hab
      omega
    have h := setLoop_spec j.used_params (fun i => j.state_index + i) s vals hnd
      (fun i hi => by dsimp only; omega) (fun i hi => by dsimp only; omega)
    exact h

/-- Witness for C5 at the concrete fixture. -/
theorem C5_witness :
    ((setParams Wm Ws [1, 3]).2 = true ↔
      ∃ i < Wm.dimension, Ws.params.getD i 0 ≠ [(1 : ℚ), 3].getD i 0 ∨
        Ws.updated.getD i false = false) ∧
    ((setParams Wm Ws [1, 3]).2 = false → (setParams Wm Ws [1, 3]).1 = Ws) :=
  ⟨((C5_setParams_family Wm Ws [1, 3] (by decide) (by decide)).1).1,
   ((C5_setParams_family Wm Ws [1, 3] (by decide) (by decide)).1).2.2.2⟩

/-- Fixture model for the group-default claim: component 1 has bounds
`[-2,2]` (0 inside), one group addressing component 1. -/
def Wm6 : KinematicModel :=
  { dimension := 2, stateBounds := [-1, 1, -2, 2],
    joints := [("j0", ⟨0, 1⟩), ("j1", ⟨1, 1⟩)],
    links := [("base", ⟨"base"⟩)],
    groups := [("g", ⟨1, [1]⟩)] }

/-- Fixture state for the group-default claim: all components unseen. -/
def Ws6 : KinematicState := ⟨[5, 5], [false, false], 0⟩

/-- C6 (code evaluated at the failing input): `defaultParamsGroup` writes
the group component's default value but leaves its "seen" flag false
(`seenAllGroup` still reports false), while whole-state `defaultParams`
does raise every flag — the group variant of the source omits the
`updated_` write its siblings all perform. -/
theorem C6_defaultParamsGroup_not_marking :
    (defaultParamsGroup Wm6 Wg Ws6).params = [5, 0] ∧
    (defaultParamsGroup Wm6 Wg Ws6).updated = [false, false] ∧
    seenAllGroup Wg (defaultParamsGroup Wm6 Wg Ws6) = false ∧
    (defaultParams Wm6 Ws6).updated = [true, true] := by
  decide

/-- Fixture model for the equality-tolerance claim: one component. -/
def Wm7 : KinematicModel := ⟨1, [-1, 1], [], [], []⟩

/-- Fixture state with component 0 equal to 0. -/
def Ws7a : KinematicState := ⟨[0], [true], 0⟩

/-- Fixture state with component 0 equal to `DBL_MIN`. -/
def Ws7b : KinematicState := ⟨[DBL_MIN], [true], 0⟩

/-- C7 counterexample: two states whose parameter buffers differ (by
exactly `DBL_MIN = 2^-1022`) nevertheless compare equal, so equality is
not exact numeric identity. -/
theorem C7_counterexample :
    stateEquals Wm7 Wm7 Ws7a Ws7b = true ∧ Ws7a.params ≠ Ws7b.params := by
  constructor
  · have habs : |(0 : ℚ) - DBL_MIN| = DBL_MIN := by
      rw [zero_sub, abs_neg, abs_of_pos]
      unfold DBL_MIN
      positivity
    have hrange : List.range Wm7.dimension = [0] := rfl
    rw [stateEquals, if_neg (fun h => h rfl), hrange]
    simp only [List.all_cons, List.all_nil, Bool.and_true]
    have hget : Ws7a.params.getD 0 0 - Ws7b.params.getD 0 0 = (0 : ℚ) - DBL_MIN := rfl
    rw [hget, habs, Bool.not_eq_true', decide_eq_false_iff_not]
    exact lt_irrefl _
  · intro h
    have h0 : (0 : ℚ) = DBL_MIN := by
      have := congrArg (fun l => l.getD 0 0) h
      simpa using this
    have hpos : (0 : ℚ) < DBL_MIN := by
      unfold DBL_MIN
      positivity
    exact absurd h0 (ne_of_lt hpos)

/-- C7 amended: equality of states compares dimensions and then every
component with absolute tolerance `DBL_MIN = 2^-1022` — not exact
identity. -/
theorem C7_equality_tolerance (m1 m2 : KinematicModel) (s1 s2 : KinematicState) :
    stateEquals m1 m2 s1 s2 = true ↔
      m1.dimension = m2.dimension ∧
      ∀ i < m1.dimension, |s1.params.getD i 0 - s2.params.getD i 0| ≤ DBL_MIN := by
  rw [stateEquals]
  by_cases hd : m1.dimension ≠ m2.dimension
  · rw [if_pos hd]
    constructor
    · intro h
      cases h
    · rintro ⟨h1, _⟩
      exact absurd h1 hd
  · rw [if_neg hd]
    push_neg at hd
    rw [List.all_eq_true]
    constructor
    · intro h
      refine ⟨hd, fun i hi => ?_⟩
      have hh := h i (List.mem_range.mpr hi)
      rw [Bool.not_eq_true', decide_eq_false_iff_not] at hh
      exact le_of_not_lt hh
    · rintro ⟨_, h⟩ i hi
      rw [Bool.not_eq_true', decide_eq_false_iff_not]
      exact not_lt.mpr (h i (List.mem_range.mp hi))

/-- Witness for the amended C7 at a concrete input. -/
theorem C7_witness : stateEquals Wm7 Wm7 Ws7a Ws7a = true :=
  (C7_equality_tolerance Wm7 Wm7 Ws7a Ws7a).mpr ⟨rfl, by
    intro i hi
    have hi1 : i < 1 := hi
    have hz : i = 0 := by omega
    subst hz
    have hget : Ws7a.params.getD 0 0 - Ws7a.params.getD 0 0 = (0 : ℚ) := sub_self _
    rw [hget, abs_zero]
    unfold DBL_MIN
    positivity⟩

theorem find?_key_eq_none {A : Type} (l : List (String × A)) (name : String)
    (h : name ∉ l.map Prod.fst) : l.find? (fun p => p.1 == name) = none := by
  rw [List.find?_eq_none]
  rintro ⟨a, b⟩ hab hbeq
  have ha : a = name := by simpa using hbeq
  subst ha
  exact h (List.mem_map.mpr ⟨(a, b), hab, rfl⟩)

theorem find?_key_eq_some {A : Type} (l : List (String × A)) (h : (l.map Prod.fst).Nodup)
    (name : String) (x : A) (hm : (name, x) ∈ l) :
    l.find? (fun p => p.1 == name) = some (name, x) := by
  induction l with
  | nil => simp at hm
  | cons hd tl ih =>
    rw [List.map_cons, List.nodup_cons] at h
    obtain ⟨hhd, htl⟩ := h
    rcases List.mem_cons.mp hm with he | hr
    · rw [← he]
      exact List.find?_cons_of_pos _ (by simp)
    · have hname : name ∈ tl.map Prod.fst := List.mem_map.mpr ⟨(name, x), hr, rfl⟩
      have hne : hd.1 ≠ name := fun he2 => hhd (he2 ▸ hname)
      rw [List.find?_cons_of_neg _ (by simpa using hne)]
      exact ih htl hr

/-- C8: name lookups are total: for a name with no entry in the map they
return `none`, and for a registered name they return the registered
object. -/
theorem C8_lookups_total (m : KinematicModel) (name : String) :
    ((name ∉ m.groups.map Prod.fst) →
        getModelGroup m name = none ∧ getGroup m name = none) ∧
    ((m.groups.map Prod.fst).Nodup →
        ∀ g : JointGroup, (name, g) ∈ m.groups →
          getModelGroup m name = some g ∧ getGroup m name = some g) ∧
    ((name ∉ m.joints.map Prod.fst) → getJoint m name = none) ∧
    ((m.joints.map Prod.fst).Nodup →
        ∀ j : Joint, (name, j) ∈ m.joints → getJoint m name = some j) ∧
    ((name ∉ m.links.map Prod.fst) → getLink m name = none) ∧
    ((m.links.map Prod.fst).Nodup →
        ∀ l : Link, (name, l) ∈ m.links → getLink m name = some l) := by
  refine ⟨?_, ?_, ?_, ?_, ?_, ?_⟩
  · intro h
    have hf := find?_key_eq_none m.groups name h
    constructor
    · rw [getModelGroup, hasModelGroup, hf]
      rfl
    · rw [getGroup, hf]
      rfl
  · intro hnd g hg
    have hf := find?_key_eq_some m.groups hnd name g hg
    constructor
    · rw [getModelGroup, hasModelGroup, hf]
      rfl
    · rw [getGroup, hf]
      rfl
  · intro h
    rw [getJoint, find?_key_eq_none m.joints name h]
    rfl
  · intro hnd j hj
    rw [getJoint, find?_key_eq_some m.joints hnd name j hj]
    rfl
  · intro h
    rw [getLink, find?_key_eq_none m.links name h]
    rfl
  · intro hnd l hl
    rw [getLink, find?_key_eq_some m.links hnd name l hl]
    rfl

/-- Witness for C8 at the concrete fixture. -/
theorem C8_witness :
    getModelGroup Wm "g" = some ⟨1, [1]⟩ ∧ getModelGroup Wm "x" = none ∧
    getJoint Wm "j0" = some ⟨0, 1⟩ ∧ getLink Wm "x" = none :=
  ⟨((C8_lookups_total Wm "g").2.1 (by decide) ⟨1, [1]⟩ (by decide)).1,
   ((C8_lookups_total Wm "x").1 (by decide)).1,
   (C8_lookups_total Wm "j0").2.2.2.1 (by decide) ⟨0, 1⟩ (by decide),
   (C8_lookups_total Wm "x").2.2.2.2.1 (by decide)⟩

/-- C10: every name-taking state operation embeds the unchecked lookup:
the operation is defined exactly when the lookup succeeds, and on
success it equals the underlying operation applied to the looked-up
group or joint. -/
theorem C10_name_ops_defined_iff_lookup (m : KinematicModel) (s : KinematicState)
    (vals : List ℚ) (name : String) :
    ((defaultParamsGroupByName m s name).isSome ↔ (getGroup m name).isSome) ∧
    (∀ g, getGroup m name = some g →
      defaultParamsGroupByName m s name = some (defaultParamsGroup m g s)) ∧
    ((enforceBoundsGroupByName m s name).isSome ↔ (getGroup m name).isSome) ∧
    (∀ g, getGroup m name = some g →
      enforceBoundsGroupByName m s name = some (enforceBoundsGroup m g s)) ∧
    ((randomParamsGroupByName m s name).isSome ↔ (getGroup m name).isSome) ∧
    (∀ g, getGroup m name = some g →
      randomParamsGroupByName m s name = some (randomParamsGroup m g s)) ∧
    ((setParamsGroupByName m s vals name).isSome ↔ (getGroup m name).isSome) ∧
    (∀ g, getGroup m name = some g →
      setParamsGroupByName m s vals name = some (setParamsGroup g s vals)) ∧
    ((checkBoundsJointByName m s name).isSome ↔ (getJoint m name).isSome) ∧
    (∀ j, getJoint m name = some j →
      checkBoundsJointByName m s name = some (checkBoundsJointFn m j s)) ∧
    ((getParamsJointByName m s name).isSome ↔ (getJoint m name).isSome) ∧
    (∀ j, getJoint m name = some j →
      getParamsJointByName m s name = some (s.params.drop j.state_index)) ∧
    ((setParamsJointByName m s vals name).isSome ↔ (getJoint m name).isSome) ∧
    (∀ j, getJoint m name = some j →
      setParamsJointByName m s vals name = some (setParamsJoint j s vals)) := by
  refine ⟨?_, ?_, ?_, ?_, ?_, ?_, ?_, ?_, ?_, ?_, ?_, ?_, ?_, ?_⟩
  · cases h : getGroup m name <;> simp [defaultParamsGroupByName, h]
  · intro g hg
    rw [defaultParamsGroupByName, hg]
    rfl
  · cases h : getGroup m name <;> simp [enforceBoundsGroupByName, h]
  · intro g hg
    rw [enforceBoundsGroupByName, hg]
    rfl
  · cases h : getGroup m name <;> simp [randomParamsGroupByName, h]
  · intro g hg
    rw [randomParamsGroupByName, hg]
    rfl
  · cases h : getGroup m name <;> simp [setParamsGroupByName, h]
  · intro g hg
    rw [setParamsGroupByName, hg]
    rfl
  · cases h : getJoint m name <;> simp [checkBoundsJointByName, h]
  · intro j hj
    rw [checkBoundsJointByName, hj]
    rfl
  · cases h : getJoint m name <;> simp [getParamsJointByName, h]
  · intro j hj
    rw [getParamsJointByName, hj]
    rfl
  · cases h : getJoint m name <;> simp [setParamsJointByName, h]
  · intro j hj
    rw [setParamsJointByName, hj]
    rfl

/-- Witness for C10 at the concrete fixture. -/
theorem C10_witness :
    ((defaultParamsGroupByName Wm Ws "g").isSome ↔ (getGroup Wm "g").isSome) ∧
    defaultParamsGroupByName Wm Ws "g" = some (defaultParamsGroup Wm Wg Ws) ∧
    ((checkBoundsJointByName Wm Ws "nope").isSome ↔ (getJoint Wm "nope").isSome) :=
  ⟨(C10_name_ops_defined_iff_lookup Wm Ws [] "g").1,
   (C10_name_ops_defined_iff_lookup Wm Ws [] "g").2.1 Wg (by decide),
   (C10_name_ops_defined_iff_lookup Wm Ws [] "nope").2.2.2.2.2.2.2.2.1⟩

theorem set_getD_self (l : List ℚ) (j : Nat) : l.set j (l.getD j 0) = l := by
  apply List.ext_getElem?
  intro n
  rw [List.getElem?_set]
  by_cases hj : j = n
  · subst hj
    by_cases hlt : j < l.length
    · rw [if_pos rfl, if_pos hlt, List.getD_eq_getElem _ _ hlt,
        List.getElem?_eq_getElem hlt]
    · rw [if_pos rfl, if_neg hlt, List.getElem?_eq_none (Nat.le_of_not_lt hlt)]
  · rw [if_neg hj]

theorem rand_result_lt (r1 r2 r3 : Nat) (h1 : r1 < 2048) (h2 : r2 < 1024) (h3 : r3 < 1024) :
    (r1 * 1024 ^^^ r2) * 1024 ^^^ r3 < 2 ^ 31 := by
  have ha : r1 * 1024 < 2 ^ 21 := by omega
  have hb : r2 < 2 ^ 21 := by omega
  have hc : r1 * 1024 ^^^ r2 < 2 ^ 21 := Nat.xor_lt_two_pow ha hb
  have hd : (r1 * 1024 ^^^ r2) * 1024 < 2 ^ 31 := by omega
  have he : r3 < 2 ^ 31 := by omega
  exact Nat.xor_lt_two_pow hd he

theorem rand_r_fst_le (seed : Nat) : (rand_r seed).1 ≤ RAND_MAX := by
  have h : (rand_r seed).1 < 2 ^ 31 := by
    rw [rand_r]
    dsimp only
    exact rand_result_lt _ _ _ (Nat.mod_lt _ (by norm_num)) (Nat.mod_lt _ (by norm_num))
      (Nat.mod_lt _ (by norm_num))
  rw [RAND_MAX]
  omega

theorem randomVal_mem {m : KinematicModel} {j : Nat} (hwf : lowBound m j ≤ highBound m j)
    {r : Nat} (hr : r ≤ RAND_MAX) :
    lowBound m j ≤ randomVal m j r ∧ randomVal m j r ≤ highBound m j := by
  unfold randomVal
  have hd : (0 : ℚ) < (RAND_MAX : ℚ) + 1 := by positivity
  have h0 : (0 : ℚ) ≤ (r : ℚ) / ((RAND_MAX : ℚ) + 1) := by positivity
  have h1 : (r : ℚ) / ((RAND_MAX : ℚ) + 1) ≤ 1 := by
    rw [div_le_one hd]
    have : (r : ℚ) ≤ (RAND_MAX : ℚ) := by exact_mod_cast hr
    linarith
  constructor
  · have := mul_nonneg (sub_nonneg.mpr hwf) h0
    linarith
  · have := mul_le_of_le_one_right (sub_nonneg.mpr hwf) h1
    linarith

/-- Each component within its bounds, as a predicate on the buffer. -/
def inB (m : KinematicModel) (ps : List ℚ) (k : Nat) : Prop :=
  lowBound m k ≤ ps.getD k 0 ∧ ps.getD k 0 ≤ highBound m k

theorem randLoop_inB (m : KinematicModel) (hwf : ∀ i, lowBound m i ≤ highBound m i) :
    ∀ (idxs : List Nat) (s : KinematicState) (k : Nat), k < s.params.length →
      (k ∈ idxs ∨ inB m s.params k) → inB m (randLoop m idxs s).params k
  | [], s, k => by
      intro _ hmem
      rcases hmem with h | h
      · simp at h
      · exact h
  | j :: rest, s, k => by
      intro hk hmem
      rw [randLoop]
      refine randLoop_inB m hwf rest _ k (by simpa using hk) ?_
      by_cases hkr : k ∈ rest
      · exact Or.inl hkr
      · right
        by_cases hkj : k = j
        · subst hkj
          have hset : (s.params.set k (randomVal m k (rand_r s.randSeed).1)).getD k 0 =
              randomVal m k (rand_r s.randSeed).1 := by
            rw [List.getD_eq_getElem?_getD, List.getElem?_set_self hk]
            rfl
          unfold inB
          rw [hset]
          exact randomVal_mem (hwf k) (rand_r_fst_le s.randSeed)
        · have huntouched :
              (s.params.set j (randomVal m j (rand_r s.randSeed).1)).getD k 0 =
                s.params.getD k 0 := by
            rw [List.getD_eq_getElem?_getD, List.getElem?_set_ne (fun he => hkj he.symm),
              ← List.getD_eq_getElem?_getD]
          have hB : inB m s.params k := by
            rcases hmem with hin | hB
            · rcases List.mem_cons.mp hin with he | hr
              · exact absurd he hkj
              · exact absurd hr hkr
            · exact hB
          unfold inB at hB ⊢
          rw [huntouched]
          exact hB

theorem randLoop_congr (m : KinematicModel) :
    ∀ (idxs : List Nat) (s1 s2 : KinematicState), s1.params = s2.params →
      s1.randSeed = s2.randSeed →
      (randLoop m idxs s1).params = (randLoop m idxs s2).params ∧
      (randLoop m idxs s1).randSeed = (randLoop m idxs s2).randSeed
  | [], _, _ => fun hp hr => ⟨hp, hr⟩
  | j :: rest, s1, s2 => by
      intro hp hr
      rw [randLoop, randLoop]
      exact randLoop_congr m rest _ _ (by rw [hp, hr]) (by rw [hr])

theorem perturbLoop_congr (m : KinematicModel) (f : ℚ) :
    ∀ (idxs : List Nat) (s1 s2 : KinematicState), s1.params = s2.params →
      s1.randSeed = s2.randSeed →
      (perturbLoop m f idxs s1).params = (perturbLoop m f idxs s2).params ∧
      (perturbLoop m f idxs s1).randSeed = (perturbLoop m f idxs s2).randSeed
  | [], _, _ => fun hp hr => ⟨hp, hr⟩
  | j :: rest, s1, s2 => by
      intro hp hr
      rw [perturbLoop, perturbLoop]
      exact perturbLoop_congr m f rest _ _ (by rw [hp, hr]) (by rw [hr])

theorem updLoop_params_congr (f : Nat → ℚ → ℚ) (mark : Bool) :
    ∀ (idxs : List Nat) (s1 s2 : KinematicState), s1.params = s2.params →
      (updLoop f mark idxs s1).params = (updLoop f mark idxs s2).params
  | [], _, _ => fun hp => hp
  | j :: rest, s1, s2 => by
      intro hp
      rw [updLoop, updLoop]
      exact updLoop_params_congr f mark rest _ _ (by dsimp only; rw [hp])

theorem perturbLoop_params_length (m : KinematicModel) (f : ℚ) :
    ∀ (idxs : List Nat) (s : KinematicState),
      (perturbLoop m f idxs s).params.length = s.params.length
  | [], _ => rfl
  | j :: rest, s => by
      rw [perturbLoop]
      rw [perturbLoop_params_length m f rest]
      simp

theorem runCalls_congr (m : KinematicModel) :
    ∀ (calls : List StateCall) (s1 s2 : KinematicState), s1.params = s2.params →
      s1.randSeed = s2.randSeed →
      (runCalls m calls s1).params = (runCalls m calls s2).params ∧
      (runCalls m calls s1).randSeed = (runCalls m calls s2).randSeed
  | [], _, _ => fun hp hr => ⟨hp, hr⟩
  | c :: rest, s1, s2 => by
      intro hp hr
      cases c with
      | randomAll =>
        rw [runCalls, runCalls]
        have h := randLoop_congr m (List.range m.dimension) s1 s2 hp hr
        exact runCalls_congr m rest _ _ h.1 h.2
      | randomGroup g =>
        rw [runCalls, runCalls]
        have h := randLoop_congr m (groupIdxs g) s1 s2 hp hr
        exact runCalls_congr m rest _ _ h.1 h.2
      | perturbAll f =>
        rw [runCalls, runCalls]
        have h := perturbLoop_congr m f (List.range m.dimension) s1 s2 hp hr
        refine runCalls_congr m rest _ _ ?_ ?_
        · exact updLoop_params_congr _ _ _ _ _ h.1
        · simp only [perturbParams, enforceBounds, updLoop_randSeed]
          exact h.2
      | perturbGroup f g =>
        rw [runCalls, runCalls]
        have h := perturbLoop_congr m f (groupIdxs g) s1 s2 hp hr
        refine runCalls_congr m rest _ _ ?_ ?_
        · exact updLoop_params_congr _ _ _ _ _ h.1
        · simp only [perturbParamsGroup, enforceBoundsGroup, updLoop_randSeed]
          exact h.2

theorem perturbLoop_zero_params (m : KinematicModel) :
    ∀ (idxs : List Nat) (s : KinematicState),
      (perturbLoop m 0 idxs s).params = s.params
  | [], _ => rfl
  | j :: rest, s => by
      rw [perturbLoop]
      rw [perturbLoop_zero_params m rest]
      have hval : s.params.getD j 0 + 0 * (highBound m j - lowBound m j) *
          (2 * (((rand_r s.randSeed).1 : ℚ) / ((RAND_MAX : ℚ) + 1)) - 1) =
          s.params.getD j 0 := by ring
      rw [hval]
      exact set_getD_self s.params j

/-- Fixture model for the randomness claim: one component, bounds `[0,1000]`. -/
def Wm9 : KinematicModel := ⟨1, [0, 1000], [("j0", ⟨0, 1⟩)], [], []⟩

/-- Fixture state with parameter 0 and seed 17. -/
def Ws9a : KinematicState := ⟨[0], [false], 17⟩

/-- Fixture state with parameter 10 and the same seed 17. -/
def Ws9b : KinematicState := ⟨[10], [false], 17⟩

/-- C9 counterexample: two states bound to the same model with equal
stored seeds, subjected to the same call sequence (`perturbParams 0`),
end with different parameter buffers — equality of seeds alone does not
give reproducibility, because `perturbParams` adds to the existing
buffer. -/
theorem C9_counterexample :
    Ws9a.randSeed = Ws9b.randSeed ∧
    (runCalls Wm9 [StateCall.perturbAll 0] Ws9a).params ≠
      (runCalls Wm9 [StateCall.perturbAll 0] Ws9b).params := by
  refine ⟨rfl, ?_⟩
  have ha : (runCalls Wm9 [StateCall.perturbAll 0] Ws9a).params = [0] := by
    show (perturbParams Wm9 0 Ws9a).params = [0]
    rw [perturbParams, enforceBounds]
    have hcongr := updLoop_params_congr (clampOne Wm9) false (List.range Wm9.dimension)
      (perturbLoop Wm9 0 (List.range Wm9.dimension) Ws9a) Ws9a
      (perturbLoop_zero_params Wm9 (List.range Wm9.dimension) Ws9a)
    rw [hcongr]
    decide
  have hb : (runCalls Wm9 [StateCall.perturbAll 0] Ws9b).params = [10] := by
    show (perturbParams Wm9 0 Ws9b).params = [10]
    rw [perturbParams, enforceBounds]
    have hcongr := updLoop_params_congr (clampOne Wm9) false (List.range Wm9.dimension)
      (perturbLoop Wm9 0 (List.range Wm9.dimension) Ws9b) Ws9b
      (perturbLoop_zero_params Wm9 (List.range Wm9.dimension) Ws9b)
    rw [hcongr]
    decide
  rw [ha, hb]
  decide

/-- C9 amended: the randomized family is a deterministic function of the
per-instance seed and the parameter buffer — two states of one model
with equal seeds and equal buffers stay identical under any sequence of
`randomParams` / `randomParamsGroup` / `perturbParams` /
`perturbParamsGroup` calls — and every addressed component is sampled
within its (well-formed) declared bounds. -/
theorem C9_random_seeded_reproducible :
    (∀ (m : KinematicModel) (calls : List StateCall) (s1 s2 : KinematicState),
      s1.randSeed = s2.randSeed → s1.params = s2.params →
      (runCalls m calls s1).params = (runCalls m calls s2).params ∧
      (runCalls m calls s1).randSeed = (runCalls m calls s2).randSeed) ∧
    (∀ (m : KinematicModel) (s : KinematicState), modelOK m →
      s.params.length = m.dimension →
      ∀ k < m.dimension,
        lowBound m k ≤ (randomParams m s).params.getD k 0 ∧
        (randomParams m s).params.getD k 0 ≤ highBound m k) ∧
    (∀ (m : KinematicModel) (g : JointGroup) (s : KinematicState), modelOK m →
      s.params.length = m.dimension → groupOK m g →
      ∀ i < g.dimension,
        lowBound m (g.state_index.getD i 0) ≤
          (randomParamsGroup m g s).params.getD (g.state_index.getD i 0) 0 ∧
        (randomParamsGroup m g s).params.getD (g.state_index.getD i 0) 0 ≤
          highBound m (g.state_index.getD i 0)) ∧
    (∀ (m : KinematicModel) (f : ℚ) (s : KinematicState), modelOK m →
      s.params.length = m.dimension →
      ∀ k < m.dimension,
        lowBound m k ≤ (perturbParams m f s).params.getD k 0 ∧
        (perturbParams m f s).params.getD k 0 ≤ highBound m k) := by
  refine ⟨fun m calls s1 s2 hr hp => runCalls_congr m calls s1 s2 hp hr, ?_, ?_, ?_⟩
  · intro m s hm hlen k hk
    exact randLoop_inB m (modelOK_wf hm) (List.range m.dimension) s k (by omega)
      (Or.inl (List.mem_range.mpr hk))
  · intro m g s hm hlen hg i hi
    obtain ⟨hg1, _, hg3⟩ := hg
    have hilen : i < g.state_index.length := by omega
    have hmem : g.state_index.getD i 0 ∈ g.state_index := by
      rw [List.getD_eq_getElem _ _ hilen]
      exact List.getElem_mem hilen
    have hklt : g.state_index.getD i 0 < m.dimension := hg3 _ hmem
    have hing : g.state_index.getD i 0 ∈ groupIdxs g :=
      List.mem_map.mpr ⟨i, List.mem_range.mpr hi, rfl⟩
    exact randLoop_inB m (modelOK_wf hm) (groupIdxs g) s _ (by omega) (Or.inl hing)
  · intro m f s hm hlen k hk
    rw [perturbParams, enforceBounds]
    have hlen2 : k < (perturbLoop m f (List.range m.dimension) s).params.length := by
      rw [perturbLoop_params_length]
      omega
    have hval := updLoop_params_getD (clampOne m) false (List.nodup_range m.dimension)
      (List.mem_range.mpr hk) hlen2
    rw [hval]
    exact clampOne_mem (modelOK_wf hm k) _

/-- Witness for the amended C9: two fixture states with equal seeds and
buffers but different "seen" flags stay identical under a random call,
and `randomParams` respects the fixture bounds. -/
theorem C9_witness :
    ((runCalls Wm [StateCall.randomAll] Ws).params =
      (runCalls Wm [StateCall.randomAll] ⟨[0, 3], [true, true], 17⟩).params ∧
     (runCalls Wm [StateCall.randomAll] Ws).randSeed =
      (runCalls Wm [StateCall.randomAll] ⟨[0, 3], [true, true], 17⟩).randSeed) ∧
    (lowBound Wm 0 ≤ (randomParams Wm Ws).params.getD 0 0 ∧
     (randomParams Wm Ws).params.getD 0 0 ≤ highBound Wm 0) :=
  ⟨C9_random_seeded_reproducible.1 Wm [StateCall.randomAll] Ws ⟨[0, 3], [true, true], 17⟩
      rfl rfl,
   C9_random_seeded_reproducible.2.1 Wm Ws (by decide) (by decide) 0 (by decide)⟩

theorem finalCounter_eq : ∀ (ups : List Nat) (c : Nat), finalCounter c ups = c + ups.sum
  | [], c => by simp [finalCounter]
  | u :: rest, c => by
      rw [finalCounter, finalCounter_eq rest (c + u), List.sum_cons]
      omega

theorem buildJoints_length : ∀ (ups : List Nat) (c : Nat),
    (buildJoints c ups).length = ups.length
  | [], _ => rfl
  | u :: rest, c => by
      rw [buildJoints, List.length_cons, buildJoints_length rest, List.length_cons]

theorem buildJoints_getD : ∀ (ups : List Nat) (c k : Nat), k < ups.length →
    (buildJoints c ups).getD k ⟨0, 0⟩ = ⟨c + (ups.take k).sum, ups.getD k 0⟩
  | [], c, k => by
      intro h
      simp at h
  | u :: rest, c, 0 => by
      intro _
      rw [buildJoints]
      simp [List.getD_cons_zero]
  | u :: rest, c, (k + 1) => by
      intro h
      rw [buildJoints, List.getD_cons_succ,
        buildJoints_getD rest (c + u) k (by simpa using h),
        List.take_succ_cons, List.sum_cons, List.getD_cons_succ]
      congr 1
      omega

theorem buildJoints_map_used : ∀ (ups : List Nat) (c : Nat),
    (buildJoints c ups).map Joint.used_params = ups
  | [], _ => rfl
  | u :: rest, c => by
      rw [buildJoints, List.map_cons, buildJoints_map_used rest]

theorem take_sum_le (ups : List Nat) (k : Nat) : (ups.take k).sum ≤ ups.sum := by
  conv_rhs => rw [← List.take_append_drop k ups]
  rw [List.sum_append]
  omega

theorem take_sum_mono (ups : List Nat) {k l : Nat} (h : k ≤ l) :
    (ups.take k).sum ≤ (ups.take l).sum := by
  have hle := take_sum_le (ups.take l) k
  rw [List.take_take] at hle
  have hmin : k ⊓ l = k := min_eq_left h
  rw [hmin] at hle
  exact hle

theorem take_succ_sum (ups : List Nat) (k : Nat) (h : k < ups.length) :
    (ups.take (k + 1)).sum = (ups.take k).sum + ups.getD k 0 := by
  rw [List.take_succ, List.sum_append, List.getElem?_eq_getElem h,
    List.getD_eq_getElem _ _ h]
  simp

theorem sum_cover : ∀ (ups : List Nat) (x : Nat), x < ups.sum →
    ∃ k, k < ups.length ∧ (ups.take k).sum ≤ x ∧ x < (ups.take k).sum + ups.getD k 0
  | [], x => by simp
  | u :: rest, x => by
      intro hx
      by_cases hu : x < u
      · refine ⟨0, by simp, by simp, ?_⟩
        simpa using hu
      · push_neg at hu
        rw [List.sum_cons] at hx
        obtain ⟨k, hk, h1, h2⟩ := sum_cover rest (x - u) (by omega)
        refine ⟨k + 1, by simpa using hk, ?_, ?_⟩
        · rw [List.take_succ_cons, List.sum_cons]
          omega
        · rw [List.take_succ_cons, List.sum_cons, List.getD_cons_succ]
          omega

/-- C1: the joint layout produced by construction assigns `stateIndex`
ranges that tile `[0, dimension)` exactly in declaration order — the
first joint starts at 0, each next joint starts where the previous one
ends, every range lies inside `[0, dimension)`, every state component is
covered by exactly one joint's range — and the sum of `usedParams` over
all joints equals the dimension. -/
theorem C1_state_index_partition (ups : List Nat) :
    ((buildJoints 0 ups).map Joint.used_params).sum = finalCounter 0 ups ∧
    (0 < (buildJoints 0 ups).length →
      ((buildJoints 0 ups).getD 0 ⟨0, 0⟩).state_index = 0) ∧
    (∀ k, k + 1 < (buildJoints 0 ups).length →
      ((buildJoints 0 ups).getD (k + 1) ⟨0, 0⟩).state_index =
        ((buildJoints 0 ups).getD k ⟨0, 0⟩).state_index +
          ((buildJoints 0 ups).getD k ⟨0, 0⟩).used_params) ∧
    (∀ k, k < (buildJoints 0 ups).length →
      ((buildJoints 0 ups).getD k ⟨0, 0⟩).state_index +
          ((buildJoints 0 ups).getD k ⟨0, 0⟩).used_params ≤ finalCounter 0 ups) ∧
    (∀ x, x < finalCounter 0 ups →
      ∃ k, k < (buildJoints 0 ups).length ∧
        ((buildJoints 0 ups).getD k ⟨0, 0⟩).state_index ≤ x ∧
        x < ((buildJoints 0 ups).getD k ⟨0, 0⟩).state_index +
          ((buildJoints 0 ups).getD k ⟨0, 0⟩).used_params) ∧
    (∀ k l x, k < (buildJoints 0 ups).length → l < (buildJoints 0 ups).length →
      ((buildJoints 0 ups).getD k ⟨0, 0⟩).state_index ≤ x →
      x < ((buildJoints 0 ups).getD k ⟨0, 0⟩).state_index +
        ((buildJoints 0 ups).getD k ⟨0, 0⟩).used_params →
      ((buildJoints 0 ups).getD l ⟨0, 0⟩).state_index ≤ x →
      x < ((buildJoints 0 ups).getD l ⟨0, 0⟩).state_index +
        ((buildJoints 0 ups).getD l ⟨0, 0⟩).used_params →
      k = l) := by
  have hlen := buildJoints_length ups 0
  have hfin := finalCounter_eq ups 0
  refine ⟨?_, ?_, ?_, ?_, ?_, ?_⟩
  · rw [buildJoints_map_used, hfin]
    omega
  · intro h
    rw [hlen] at h
    rw [buildJoints_getD ups 0 0 h]
    simp
  · intro k h
    rw [hlen] at h
    rw [buildJoints_getD ups 0 (k + 1) h, buildJoints_getD ups 0 k (by omega)]
    dsimp only
    rw [take_succ_sum ups k (by omega)]
    omega
  · intro k h
    rw [hlen] at h
    rw [buildJoints_getD ups 0 k h]
    dsimp only
    rw [hfin]
    have hs := take_succ_sum ups k h
    have hle := take_sum_le ups (k + 1)
    omega
  · intro x hx
    rw [hfin] at hx
    obtain ⟨k, hk, h1, h2⟩ := sum_cover ups x (by omega)
    refine ⟨k, by omega, ?_, ?_⟩
    · rw [buildJoints_getD ups 0 k hk]
      dsimp only
      omega
    · rw [buildJoints_getD ups 0 k hk]
      dsimp only
      omega
  · intro k l x hk hl hk1 hk2 hl1 hl2
    rw [hlen] at hk hl
    rw [buildJoints_getD ups 0 k hk] at hk1 hk2
    rw [buildJoints_getD ups 0 l hl] at hl1 hl2
    dsimp only at hk1 hk2 hl1 hl2
    rcases Nat.lt_trichotomy k l with hkl | hkl | hkl
    · exfalso
      have hmono : (ups.take (k + 1)).sum ≤ (ups.take l).sum := take_sum_mono ups (by omega)
      rw [take_succ_sum ups k hk] at hmono
      omega
    · exact hkl
    · exfalso
      have hmono : (ups.take (l + 1)).sum ≤ (ups.take k).sum := take_sum_mono ups (by omega)
      rw [take_succ_sum ups l hl] at hmono
      omega

/-- Witness for C1 at the concrete layout `[1, 3, 7]`: the usedParams
sum equals the dimension, joint 1 starts where joint 0 ends, and state
component 5 is covered by some joint's range. -/
theorem C1_witness :
    ((buildJoints 0 [1, 3, 7]).map Joint.used_params).sum = finalCounter 0 [1, 3, 7] ∧
    ((buildJoints 0 [1, 3, 7]).getD 1 ⟨0, 0⟩).state_index =
      ((buildJoints 0 [1, 3, 7]).getD 0 ⟨0, 0⟩).state_index +
        ((buildJoints 0 [1, 3, 7]).getD 0 ⟨0, 0⟩).used_params ∧
    (∃ k, k < (buildJoints 0 [1, 3, 7]).length ∧
      ((buildJoints 0 [1, 3, 7]).getD k ⟨0, 0⟩).state_index ≤ 5 ∧
      5 < ((buildJoints 0 [1, 3, 7]).getD k ⟨0, 0⟩).state_index +
        ((buildJoints 0 [1, 3, 7]).getD k ⟨0, 0⟩).used_params) :=
  ⟨(C1_state_index_partition [1, 3, 7]).1,
   (C1_state_index_partition [1, 3, 7]).2.2.1 0 (by decide),
   (C1_state_index_partition [1, 3, 7]).2.2.2.2.1 5 (by decide)⟩

end PM
